import Mathlib

/-!
Verification development for the colibri-stateless repository.

Part 1 embeds the SP1 zk guest program that verifies Ethereum sync-committee
light-client updates (src/chains/eth/zk_proof/program/src/main.rs together
with the helpers of src/chains/eth/zk_proof/common/src/merkle.rs).

Part 2 embeds the OP-stack preconf ingester of src/chains/op/kona_bridge
(symlink maintenance, TTL cleanup and the HTTP/gossip mode machine).

Bytes are modelled as natural numbers below 256 and byte strings as lists of
naturals.  Machine arithmetic (u32/u64) is modelled as Nat with explicit
wrap-arounds modulo 2 ^ 32 or 2 ^ 64 where the Rust code can overflow.
External collaborators of the guest program (the sha2 crate, the BLS pairing
library, the sp1 recursion syscall and bincode) are parameters gathered in
the structure ZkEnv: every theorem below holds for an arbitrary
interpretation of these collaborators.
-/

/-- Byte strings: lists of naturals (each entry is one byte of the source). -/
abbrev Bytes := List Nat

/-- A 32-byte buffer of zeroes, the `[0u8; 32]` initial value used throughout
`merkle.rs`. -/
def zeros32 : Bytes := List.replicate 32 0

/-- `VerificationOutput`, the public output committed by the guest program.

Modelled from the spec: the structure declaration the guest program compiles
against (the up-to-date `eth_sync_common` library also declaring
`SP1GuestInput` and `RecursionData`) is not among the staged files — the
staged `common/src/lib.rs` is an older three-field revision that does not
declare `SP1GuestInput` at all.  The five fields follow the spec sentence
"the sub-proof's public output commits to `(current_keys_root,
next_keys_root, next_period, attested_header_root, domain)`" and the struct
literal built at main.rs lines 290-296. -/
structure VerificationOutput where
  current_keys_root : Bytes
  next_keys_root : Bytes
  next_period : Nat
  attested_header_root : Bytes
  domain : Bytes
deriving DecidableEq

/-- `ProofData` (common/src/lib.rs lines 5-17). -/
structure ProofData where
  current_keys_root : Bytes
  next_keys_root : Bytes
  next_period : Nat
  current_keys : Bytes
  signature_bits : Bytes
  signature : Bytes
  slot_bytes : Bytes
  proposer_bytes : Bytes
  proof : Bytes
  gidx : Nat
deriving DecidableEq

/-- `RecursionData`, the wrapper carrying a previous proof into the guest.

Modelled from the spec: its declaration is in the missing revision of
`eth_sync_common`; the three fields follow their construction in
script/src/main.rs lines 149-153 and their uses in main.rs lines 60-81. -/
structure RecursionData where
  vkey_hash : List Nat
  public_values_digest : Bytes
  public_values : Bytes
deriving DecidableEq

/-- `SP1GuestInput`, the host-to-guest input wrapper.

Modelled from the spec: declared in the missing revision of
`eth_sync_common`; the two fields follow the construction at
script/src/main.rs lines 159-162 and the reads at main.rs lines 52-60. -/
structure SP1GuestInput where
  proof_data : ProofData
  recursion_data : Option RecursionData
deriving DecidableEq

/-- The external collaborators the guest program calls into.  All theorems
about the guest hold for every interpretation of this structure.
`sha256_merkle` is SHA256 over the concatenation of two 32-byte nodes
(merkle.rs lines 5-10), `sha256_bytes` SHA256 over an arbitrary byte string,
`bincode_verification_output` the bincode decoder of a `VerificationOutput`,
`verify_sp1_proof` the sp1 recursion syscall (which aborts the proof unless
the verifying key and public-values digest check out), and
`bls_verify_signature` the aggregate BLS check of program/src/bls.rs. -/
structure ZkEnv where
  sha256_merkle : Bytes → Bytes → Bytes
  sha256_bytes : Bytes → Bytes
  bincode_verification_output : Bytes → Option VerificationOutput
  verify_sp1_proof : List Nat → Bytes → Bool
  bls_verify_signature : Bytes → Bytes → Bytes → Bytes → Bool

/-- Set-bit count of one byte (`u8::count_ones`).  The formula reads the
eight bits of a byte; entries of a byte string are below 256. -/
def count_ones_u8 (b : Nat) : Nat :=
  b % 2 + b / 2 % 2 + b / 4 % 2 + b / 8 % 2 +
    b / 16 % 2 + b / 32 % 2 + b / 64 % 2 + b / 128 % 2

/-- `count_bits_set_512` (main.rs lines 11-13): total number of set bits of
the 64-byte participation bitfield. -/
def count_bits_set_512 (bits : Bytes) : Nat :=
  (bits.map count_ones_u8).sum

/-- Floor base-2 logarithm by structural recursion on a fuel of 32 bit
positions (enough for every u32). -/
def log2_fuel : Nat → Nat → Nat
  | 0, _ => 0
  | Nat.succ fuel, n => if n < 2 then 0 else log2_fuel fuel (n / 2) + 1

/-- `floorlog2_u32` (main.rs lines 15-20): `31 - x.leading_zeros()`, a panic
at zero (modelled as `none`). -/
def floorlog2_u32 (x : Nat) : Option Nat :=
  if x = 0 then none else some (log2_fuel 32 x)

/-- `u32::checked_shl`: `none` for a shift amount of 32 or more, otherwise
the shifted value truncated to 32 bits (Rust discards overflowing bits
without reporting them). -/
def checked_shl_u32 (x n : Nat) : Option Nat :=
  if 32 ≤ n then none else some ((x <<< n) % 2 ^ 32)

/-- `u32::checked_add`: `none` on overflow past 2 ^ 32 - 1. -/
def checked_add_u32 (a b : Nat) : Option Nat :=
  if a + b < 2 ^ 32 then some (a + b) else none

/-- `ssz_add_gindex` (main.rs lines 22-33): composition of generalized
indices; the `.expect` panics are modelled as `none`. -/
def ssz_add_gindex (parent child : Nat) : Option Nat := do
  let depth ← floorlog2_u32 child
  let base ← checked_shl_u32 1 depth
  let p ← checked_shl_u32 parent depth
  checked_add_u32 p (child - base)

def NEXT_SYNC_COMMITTEE_GINDEX_DENEB : Nat := 55

def NEXT_SYNC_COMMITTEE_GINDEX_ELECTRA : Nat := 87

def SIGNING_DATA_STATE_ROOT_GINDEX : Nat := 19

/-- Little-endian value of a byte string (`u64::from_le_bytes` for an
8-byte input). -/
def from_le_bytes (b : Bytes) : Nat :=
  b.foldr (fun byte acc => byte + 256 * acc) 0

/-- `verify_slot` (merkle.rs lines 99-109): the 8-byte slot and proposer
values are laid into 32-byte zero-padded chunks and their Merkle hash is
compared with the supplied proof node. -/
def verify_slot (E : ZkEnv) (slot proposer proofElem : Bytes) : Bool :=
  let slot_hash := slot ++ List.replicate (32 - slot.length) 0
  let proposer_hash := proposer ++ List.replicate (32 - proposer.length) 0
  decide (E.sha256_merkle slot_hash proposer_hash = proofElem)

/-- One pass of `n` sibling nodes up a Merkle path, the loop body shared by
`verify_merkle_proof` (merkle.rs lines 23-38) and the two explicit loops of
main.rs lines 200-209 and 233-241: at each level the 32-byte sibling is the
next chunk of `proof`, the side is the parity of the generalized index, and
the index halves.  Returns the final generalized index and node. -/
def merkle_chunks_walk (E : ZkEnv) : Nat → Bytes → Nat → Bytes → Nat × Bytes
  | 0, _, gindex, root => (gindex, root)
  | Nat.succ m, proof, gindex, root =>
    let sibling := proof.take 32
    let root2 :=
      if gindex % 2 = 1 then E.sha256_merkle sibling root
      else E.sha256_merkle root sibling
    merkle_chunks_walk E m (proof.drop 32) (gindex / 2) root2

/-- `verify_merkle_proof` (merkle.rs lines 23-38): folds every full 32-byte
chunk of `proof` into the root (the trailing short chunk, if any, is
skipped by the `break`), so exactly `proof.length / 32` levels are walked. -/
def verify_merkle_proof (E : ZkEnv) (proof : Bytes) (gindex : Nat) (root : Bytes) : Bytes :=
  (merkle_chunks_walk E (proof.length / 32) proof gindex root).2

/-- The recursive helper `(merkle.rs lines 46-72)` computing the SSZ
hash-tree-root of the 512 public keys.  The source recurses on the
generalized index, doubling it from 1 until it reaches the leaf band
[512, 1024); the extra fuel argument (10 at the root) makes that recursion
structural and is never exhausted, because the index doubles at every
internal step.  A leaf whose 48 key bytes run past the end of the input
leaves the caller-supplied zero buffer untouched (modelled by `zeros32`). -/
def root_hash_rec (E : ZkEnv) (keys : Bytes) : Nat → Nat → Bytes
  | 0, _ => zeros32
  | Nat.succ fuel, gindex =>
    if 512 ≤ gindex then
      let offset := (gindex - 512) * 48
      if keys.length < offset + 48 then zeros32
      else
        E.sha256_merkle ((keys.drop offset).take 32)
          (((keys.drop (offset + 32)).take 16) ++ List.replicate 16 0)
    else
      E.sha256_merkle (root_hash_rec E keys fuel (2 * gindex))
        (root_hash_rec E keys fuel (2 * gindex + 1))

/-- `create_root_hash` (merkle.rs lines 83-85). -/
def create_root_hash (E : ZkEnv) (keys : Bytes) : Bytes :=
  root_hash_rec E keys 10 1

/-- The fork selection of main.rs lines 163-167: the generalized index of
`next_sync_committee.pubkeys` is chosen by the node count of the supplied
branch alone; any other count panics. -/
def next_sync_committee_gindex_for (branch_nodes : Nat) : Option Nat :=
  if branch_nodes = 10 then some NEXT_SYNC_COMMITTEE_GINDEX_DENEB
  else if branch_nodes = 11 then some NEXT_SYNC_COMMITTEE_GINDEX_ELECTRA
  else none

/-- Wrapping `n - 1` in u64 (main.rs line 115 computes
`proof_data.next_period - 1`; the guest is built in release mode, where the
subtraction wraps — a debug build would abort on underflow, which rejects
the input just the same). -/
def u64_wrapping_sub_one (n : Nat) : Nat :=
  (n + (2 ^ 64 - 1)) % 2 ^ 64

/-- The recursion block of the guest program (main.rs lines 59-106):
verifies the previous proof via the sp1 syscall, checks the digest of the
supplied public values, decodes them, and enforces period and key
continuity.  Returns the aggregated starting committee root (the previous
proof root when recursion is active, the current input root otherwise);
`none` models a panic. -/
def guest_recursion_root (E : ZkEnv) (pd : ProofData) :
    Option RecursionData → Option Bytes
  | none => some pd.current_keys_root
  | some rd =>
    if E.verify_sp1_proof rd.vkey_hash rd.public_values_digest = false then none
    else if E.sha256_bytes rd.public_values ≠ rd.public_values_digest then none
    else
      match E.bincode_verification_output rd.public_values with
      | none => none
      | some prev =>
        let current_period := from_le_bytes pd.slot_bytes >>> 13
        if prev.next_period ≠ current_period then none
        else if prev.next_keys_root ≠ pd.current_keys_root then none
        else some prev.current_keys_root

/-- The intermediate values of the guest program named by the let bindings
of main.rs, lifted to definitions: the header-proof slice of main.rs lines
217-218, the domain leaf of line 225, and the two index walks of lines
198-209 and 230-241. -/
def sp1_header_proof (pd : ProofData) : Bytes :=
  pd.proof.drop ((pd.proof.length / 32 - 4) * 32)

/-- The domain leaf: the final 32 bytes of the header proof slice
(main.rs line 225). -/
def sp1_domain (pd : ProofData) : Bytes :=
  (sp1_header_proof pd).drop ((sp1_header_proof pd).length - 32)

/-- The walk of main.rs lines 198-209 recovering `attested_state_root`:
the first `total_nodes - 4` proof chunks folded from `next_keys_root`
starting at the expected generalized index. -/
def sp1_state_walk (E : ZkEnv) (pd : ProofData) (expected_gidx : Nat) : Nat × Bytes :=
  merkle_chunks_walk E (pd.proof.length / 32 - 4) pd.proof expected_gidx pd.next_keys_root

/-- The walk of main.rs lines 230-241 recovering `attested_header_root`:
three further levels through the header proof from gindex 19. -/
def sp1_header_walk (E : ZkEnv) (pd : ProofData) (expected_gidx : Nat) : Nat × Bytes :=
  merkle_chunks_walk E 3 (sp1_header_proof pd) SIGNING_DATA_STATE_ROOT_GINDEX
    (sp1_state_walk E pd expected_gidx).2

/-- The guest program `main` (main.rs lines 50-299) as a function from the
input to the committed output; `none` models every panic path.  The two
explicit index loops of section 4b are `merkle_chunks_walk`; their 32-byte
slices cannot run short on any input that passes the node-count selection
(the branch then holds at least 320 bytes), so the unwrap panics of the
slicing are unreachable. -/
def guest_main (E : ZkEnv) (input : SP1GuestInput) : Option VerificationOutput :=
  match guest_recursion_root E input.proof_data input.recursion_data with
  | none => none
  | some output_current_keys_root =>
    if from_le_bytes input.proof_data.slot_bytes >>> 13
        ≠ u64_wrapping_sub_one input.proof_data.next_period then none
    else if input.proof_data.proof.length < 96 then none
    else if verify_slot E input.proof_data.slot_bytes input.proof_data.proposer_bytes
        ((input.proof_data.proof.drop (input.proof_data.proof.length - 96)).take 32)
        = false then none
    else if create_root_hash E input.proof_data.current_keys
        ≠ input.proof_data.current_keys_root then none
    else
      match next_sync_committee_gindex_for (input.proof_data.proof.length / 32) with
      | none => none
      | some next_gindex =>
        match ssz_add_gindex SIGNING_DATA_STATE_ROOT_GINDEX next_gindex with
        | none => none
        | some half_gidx =>
          if input.proof_data.proof.length / 32 ≠ 10
              ∧ input.proof_data.proof.length / 32 ≠ 11 then none
          else if (sp1_state_walk E input.proof_data (half_gidx * 2 % 2 ^ 32)).1
              ≠ SIGNING_DATA_STATE_ROOT_GINDEX then none
          else if (sp1_header_proof input.proof_data).length ≠ 4 * 32 then none
          else if (sp1_domain input.proof_data).take 4 ≠ [7, 0, 0, 0] then none
          else if (sp1_header_walk E input.proof_data (half_gidx * 2 % 2 ^ 32)).1 ≠ 2 then
            none
          else if input.proof_data.signature.length ≠ 96 then none
          else if input.proof_data.signature_bits.length ≠ 64 then none
          else if count_bits_set_512 input.proof_data.signature_bits < 1 then none
          else if count_bits_set_512 input.proof_data.signature_bits * 3 < 512 * 2 then none
          else if E.bls_verify_signature
              (verify_merkle_proof E input.proof_data.proof (half_gidx * 2 % 2 ^ 32)
                input.proof_data.next_keys_root)
              input.proof_data.signature input.proof_data.current_keys
              input.proof_data.signature_bits = false then none
          else
            some {
              current_keys_root := output_current_keys_root,
              next_keys_root := input.proof_data.next_keys_root,
              next_period := input.proof_data.next_period,
              attested_header_root := (sp1_header_walk E input.proof_data
                (half_gidx * 2 % 2 ^ 32)).2,
              domain := sp1_domain input.proof_data }

/-!
Spec-side description of the committee root, used to compare
`create_root_hash` with the tree the spec describes: a depth-9 binary
SHA-256 Merkle tree over 512 leaves, leaf `i` hashing the first 32 bytes of
key `i` against its remaining 16 bytes padded with 16 zero bytes.
-/

/-- Leaf `i` of the committee tree as the spec words it: SHA256 of
`key_i[0..32]` and `key_i[32..48]` padded with 16 zero bytes. -/
def spec_committee_leaf (E : ZkEnv) (keys : Bytes) (i : Nat) : Bytes :=
  E.sha256_merkle ((keys.drop (48 * i)).take 32)
    (((keys.drop (48 * i + 32)).take 16) ++ List.replicate 16 0)

/-- Node of the spec-side committee tree: height `h`, position `i`; the node
of height `h + 1` at position `i` hashes its two children at positions
`2 * i` and `2 * i + 1`. -/
def spec_committee_node (E : ZkEnv) (keys : Bytes) : Nat → Nat → Bytes
  | 0, i => spec_committee_leaf E keys i
  | Nat.succ h, i =>
    E.sha256_merkle (spec_committee_node E keys h (2 * i))
      (spec_committee_node E keys h (2 * i + 1))

/-- The spec-side committee root: the depth-9 tree over the 512 leaves. -/
def spec_committee_root (E : ZkEnv) (keys : Bytes) : Bytes :=
  spec_committee_node E keys 9 0

/-!
Part 2: the OP-stack preconf ingester (src/chains/op/kona_bridge).

The directory holding preconf payloads is modelled at the block-number
level: the payload file `block_<chain>_<n>.raw` is in bijection with its
block number `n`, so the directory listing is a duplicate-free list of
numbers, and a symlink names the number of its target file.
-/

/-- The preconf output directory: the block numbers of the stored
`block_<chain>_<n>.raw` files in creation order, and the block numbers the
two well-known symlinks currently name (`none` when a symlink is absent). -/
structure PreconfDir where
  files : List Nat
  latest : Option Nat
  pre_latest : Option Nat
deriving DecidableEq

/-- The empty output directory. -/
def emptyPreconfDir : PreconfDir :=
  { files := [], latest := none, pre_latest := none }

/-- `find_previous_block_file` (utils.rs lines 118-157): collect the block
numbers of the `block_<chain>_<n>.raw` files, drop timestamp-like numbers
of 1000000000 and above, and — given at least two files — sort by block
number and return the second-newest entry.  `insertionSort` stands for the
stable `sort_by_key` of the source. -/
def find_previous_block_file (files : List Nat) : Option Nat :=
  let block_files := files.filter (fun n => decide (n < 1000000000))
  if block_files.length < 2 then none
  else
    let sorted := block_files.insertionSort (· ≤ ·)
    some (sorted.getD (sorted.length - 2) 0)

/-- `update_symlinks_lib` (utils.rs lines 83-114) at the directory level:
point `pre_latest.raw` at the second-newest block file when one exists,
then point `latest.raw` at the file just written. -/
def update_symlinks_lib (dir : PreconfDir) (new_latest : Nat) : PreconfDir :=
  let dir1 :=
    match find_previous_block_file dir.files with
    | some prev => { dir with pre_latest := some prev }
    | none => dir
  { dir1 with latest := some new_latest }

/-- One preconf write as `process_http_preconf` (http.rs lines 149-155)
performs it: persist `block_<chain>_<n>.raw` (overwriting a file of the
same name rather than duplicating it), then refresh both symlinks. -/
def process_preconf_write (dir : PreconfDir) (n : Nat) : PreconfDir :=
  let files1 := if n ∈ dir.files then dir.files else dir.files ++ [n]
  update_symlinks_lib { dir with files := files1 } n

/-!
The file-system effect trace of `update_symlinks_lib`: each remove or
create of one of the two well-known names is one atomic effect; the claim
about atomicity is settled on the list of intermediate states.
-/

/-- One file-system effect of `update_symlinks_lib` on the two well-known
symlink names. -/
inductive SymlinkOp where
  | removePre : SymlinkOp
  | createPre : Nat → SymlinkOp
  | removeLatest : SymlinkOp
  | createLatest : Nat → SymlinkOp
deriving DecidableEq

/-- The two well-known names as a reader sees them: `none` = absent. -/
structure LinkState where
  latest : Option Nat
  pre_latest : Option Nat
deriving DecidableEq

/-- The effect sequence of `update_symlinks_lib` (utils.rs lines 95-109):
when a previous block file exists, first unlink `pre_latest.raw` and then
create it anew; afterwards unlink `latest.raw` and create it anew.  No
effect is a rename. -/
def update_symlinks_ops (previous : Option Nat) (new_latest : Nat) : List SymlinkOp :=
  (match previous with
   | some prev => [SymlinkOp.removePre, SymlinkOp.createPre prev]
   | none => []) ++ [SymlinkOp.removeLatest, SymlinkOp.createLatest new_latest]

/-- Applying one effect. -/
def apply_symlink_op (s : LinkState) : SymlinkOp → LinkState
  | SymlinkOp.removePre => { s with pre_latest := none }
  | SymlinkOp.createPre t => { s with pre_latest := some t }
  | SymlinkOp.removeLatest => { s with latest := none }
  | SymlinkOp.createLatest t => { s with latest := some t }

/-- Every state a concurrent reader can observe while the effect list runs,
the initial and final states included. -/
def link_states_along (s : LinkState) (ops : List SymlinkOp) : List LinkState :=
  ops.scanl apply_symlink_op s

/-!
TTL cleanup (utils.rs lines 198-255).
-/

/-- A directory entry as the cleanup task sees it: its file name and the
age of its last modification in seconds. -/
structure DirEntryM where
  name : String
  age : Nat
deriving DecidableEq

/-- Characters after the last dot of a list, `none` when no dot occurs. -/
def after_last_dot : List Char → Option (List Char)
  | [] => none
  | c :: rest =>
    match after_last_dot rest with
    | some s => some s
    | none => if c = '.' then some rest else none

/-- `std::path::Path::extension`: the portion of the file name after the
final dot; `none` when there is no dot, or when the name begins with a dot
and contains no other dot. -/
def path_extension (name : String) : Option String :=
  match name.data with
  | [] => none
  | c :: rest =>
    (if c = '.' then after_last_dot rest else after_last_dot (c :: rest)).map
      (fun l => String.mk l)

/-- The per-entry decision of `cleanup_expired_files` (utils.rs lines
208-249): keep entries whose extension is neither `raw` nor `json`, keep
the entry named `latest.raw`, and delete the rest once their age strictly
exceeds the TTL. -/
def cleanup_deletes (ttl : Nat) (e : DirEntryM) : Bool :=
  match path_extension e.name with
  | none => false
  | some ext =>
    if ext ≠ "raw" ∧ ext ≠ "json" then false
    else if e.name = "latest.raw" then false
    else decide (ttl < e.age)

/-- `cleanup_expired_files` as the set of entries one run deletes. -/
def cleanup_expired_files (ttl : Nat) (entries : List DirEntryM) : List DirEntryM :=
  entries.filter (cleanup_deletes ttl)

/-!
The HTTP-primary bridge mode machine (http.rs lines 188-551 and
types.rs lines 12-35).
-/

/-- `BridgeMode` (types.rs lines 13-18). -/
inductive BridgeMode where
  | HttpOnly : BridgeMode
  | HttpPlusGossip : BridgeMode
  | GossipFallback : BridgeMode
deriving DecidableEq

/-- The loop state of `run_http_primary_with_gossip_fallback` that the
block-processing path touches: the tracker mode, the gap-free success
counter, the last processed block number, and whether the parallel gossip
task is running. -/
structure HttpLoopState where
  mode : BridgeMode
  consecutive_success_blocks : Nat
  last_block_number : Option Nat
  gossip_running : Bool
deriving DecidableEq

/-- The starting state of the loop (http.rs lines 206-215; the tracker is
created in HTTP-only mode with a zero success counter). -/
def initialHttpLoopState : HttpLoopState :=
  { mode := BridgeMode.HttpOnly, consecutive_success_blocks := 0,
    last_block_number := none, gossip_running := false }

/-- One successfully processed, non-duplicate HTTP block through the loop
body of http.rs lines 297-433, as the source brackets it: when a previous
block number is recorded and the saturating gap exceeds one, a missing run
of at least 50 blocks in HTTP-only mode escalates to HTTP+gossip (spawning
the gossip task and zeroing the success counter); the branch that
increments the success counter and — at 50 in HTTP+gossip mode — demotes
back to HTTP-only is the `else` of `if let Some(last_num) =
last_block_number`, so it runs only when no previous block number is
recorded.  Afterwards the processed number is recorded. -/
def process_block_step (s : HttpLoopState) (block_number : Nat) : HttpLoopState :=
  match s.last_block_number with
  | some last_num =>
    let gap := block_number - last_num
    if 1 < gap then
      let missing_blocks := gap - 1
      if 50 ≤ missing_blocks ∧ s.mode = BridgeMode.HttpOnly then
        { mode := BridgeMode.HttpPlusGossip, consecutive_success_blocks := 0,
          last_block_number := some block_number, gossip_running := true }
      else { s with last_block_number := some block_number }
    else { s with last_block_number := some block_number }
  | none =>
    let csb := s.consecutive_success_blocks + 1
    if s.mode = BridgeMode.HttpPlusGossip ∧ 50 ≤ csb then
      { mode := BridgeMode.HttpOnly, consecutive_success_blocks := 0,
        last_block_number := some block_number, gossip_running := false }
    else { s with consecutive_success_blocks := csb,
                  last_block_number := some block_number }

/-- The loop state after a sequence of processed blocks. -/
def process_blocks (s : HttpLoopState) (blocks : List Nat) : HttpLoopState :=
  blocks.foldl process_block_step s

/-!
Claim theorems: the preconf ingester.
-/

/-- C7 counterexample: running the effect sequence of `update_symlinks_lib`
from a state where both well-known names exist, the reader can observe a
state in which `latest.raw` is absent — the swap is remove-then-create, not
an atomic rename, so the claim fails. -/
theorem c7_counterexample :
    { latest := none, pre_latest := some 1 : LinkState } ∈
      link_states_along { latest := some 1, pre_latest := some 0 }
        (update_symlinks_ops (some 1) 2) := by decide

/-- C7 (amended): `update_symlinks_lib` swaps each well-known symlink by an
unlink followed by a fresh create, so there is an intermediate point of the
effect sequence at which `latest.raw` is absent (and likewise
`pre_latest.raw` when a previous file exists); once the sequence completes,
`latest.raw` names the new payload and `pre_latest.raw` names the previous
one (or is untouched when no previous file exists). -/
theorem c7_theorem (s : LinkState) (previous : Option Nat) (new_latest : Nat) :
    ((update_symlinks_ops previous new_latest).foldl apply_symlink_op s).latest
        = some new_latest
    ∧ (∀ p, previous = some p →
        ((update_symlinks_ops previous new_latest).foldl apply_symlink_op s).pre_latest
          = some p)
    ∧ (previous = none →
        ((update_symlinks_ops previous new_latest).foldl apply_symlink_op s).pre_latest
          = s.pre_latest)
    ∧ ∃ t ∈ link_states_along s (update_symlinks_ops previous new_latest),
        t.latest = none := by
  cases previous with
  | none =>
    refine ⟨rfl, by simp, fun _ => rfl, ?_⟩
    exact ⟨{ s with latest := none }, by simp [link_states_along, List.scanl,
      update_symlinks_ops, apply_symlink_op], rfl⟩
  | some p =>
    refine ⟨rfl, by simp [update_symlinks_ops, apply_symlink_op], by simp, ?_⟩
    exact ⟨{ latest := none, pre_latest := some p }, by simp [link_states_along,
      List.scanl, update_symlinks_ops, apply_symlink_op], rfl⟩

/-- C8 counterexample: an entry named `pre_latest.raw` whose age exceeds the
TTL is deleted by the cleanup run — only `latest.raw` is excluded, so the
claim that both symlinks are always left in place fails. -/
theorem c8_counterexample :
    cleanup_expired_files 60 [{ name := "pre_latest.raw", age := 61 }]
      = [{ name := "pre_latest.raw", age := 61 }] := by decide

/-- C8 (amended): one cleanup run deletes exactly the entries whose file
extension is `raw` or `json`, whose name is not `latest.raw`, and whose
modification age strictly exceeds the TTL; `latest.raw` is always kept, but
`pre_latest.raw` is treated like any other `.raw` file. -/
theorem c8_theorem (ttl : Nat) (e : DirEntryM) (entries : List DirEntryM) :
    (e ∈ cleanup_expired_files ttl entries ↔
      e ∈ entries ∧ cleanup_deletes ttl e = true)
    ∧ (cleanup_deletes ttl e = true ↔
        (∃ ext, path_extension e.name = some ext ∧ (ext = "raw" ∨ ext = "json"))
          ∧ e.name ≠ "latest.raw" ∧ ttl < e.age)
    ∧ (e.name = "latest.raw" → cleanup_deletes ttl e = false) := by
  refine ⟨List.mem_filter, ?_, ?_⟩
  · unfold cleanup_deletes
    cases hx : path_extension e.name with
    | none => simp
    | some ext =>
      by_cases h1 : ext ≠ "raw" ∧ ext ≠ "json"
      · simp only [if_pos h1]
        constructor
        · intro h; cases h
        · rintro ⟨⟨e2, he2, hor⟩, -, -⟩
          obtain rfl : e2 = ext := (Option.some.inj he2).symm
          rcases hor with h | h
          · exact absurd h h1.1
          · exact absurd h h1.2
      · simp only [if_neg h1]
        push_neg at h1
        by_cases h2 : e.name = "latest.raw"
        · simp only [if_pos h2]
          constructor
          · intro h; cases h
          · rintro ⟨-, hne, -⟩; exact absurd h2 hne
        · simp only [if_neg h2]
          constructor
          · intro h
            refine ⟨⟨ext, rfl, ?_⟩, h2, of_decide_eq_true h⟩
            by_cases hr : ext = "raw"
            · exact Or.inl hr
            · exact Or.inr (h1 hr)
          · rintro ⟨-, -, hage⟩; exact decide_eq_true hage
  · intro h
    obtain ⟨name, age⟩ := e
    simp only at h
    subst h
    rfl

/-- C9: the code never demotes from HTTP+gossip back to HTTP-only after 50
consecutive gap-free HTTP blocks.  After a 99-block gap escalates the mode,
51 further consecutive gap-free blocks are processed, yet the mode is still
HTTP+gossip, the gossip task is still running, and the success counter has
never advanced — the counting branch is the `else` of
`if let Some(last_num) = last_block_number` and so runs only when no
previous block number is recorded. -/
theorem c9_theorem :
    (process_blocks initialHttpLoopState [100, 200]).mode
        = BridgeMode.HttpPlusGossip
    ∧ (process_blocks initialHttpLoopState
        ([100, 200] ++ (List.range 51).map (fun i => 201 + i))).mode
        = BridgeMode.HttpPlusGossip
    ∧ (process_blocks initialHttpLoopState
        ([100, 200] ++ (List.range 51).map (fun i => 201 + i))).gossip_running
        = true
    ∧ (process_blocks initialHttpLoopState
        ([100, 200] ++ (List.range 51).map (fun i => 201 + i))).consecutive_success_blocks
        = 0 := by decide

/-- One write into a directory whose listing is `l`: the new file is
appended, `latest.raw` names it, and `pre_latest.raw` names the largest
earlier block (the listing being sorted), or is untouched when the
directory held no earlier file. -/
theorem process_preconf_write_spec (d : PreconfDir) (l : List Nat) (n : Nat)
    (hf : d.files = l) (hlt : ∀ x ∈ l, x < n) (hreal : ∀ x ∈ l, x < 1000000000)
    (hn : n < 1000000000) (hsort : List.Sorted (· ≤ ·) l) :
    (process_preconf_write d n).files = l ++ [n]
    ∧ (process_preconf_write d n).latest = some n
    ∧ (l = [] → (process_preconf_write d n).pre_latest = d.pre_latest)
    ∧ (l ≠ [] → (process_preconf_write d n).pre_latest = l.getLast?) := by
  have hnotmem : n ∉ l := fun h => absurd (hlt n h) (lt_irrefl n)
  have hfilter : (l ++ [n]).filter (fun x => decide (x < 1000000000)) = l ++ [n] := by
    refine List.filter_eq_self.mpr ?_
    intro a ha
    rcases List.mem_append.mp ha with h | h
    · exact decide_eq_true (hreal a h)
    · simp only [List.mem_singleton] at h
      exact decide_eq_true (h ▸ hn)
  unfold process_preconf_write update_symlinks_lib find_previous_block_file
  rw [hf, if_neg hnotmem]
  simp only [hfilter, List.length_append, List.length_singleton]
  by_cases hl : l = []
  · subst hl
    simp
  · have h2 : ¬l.length + 1 < 2 := by
      have : l.length ≠ 0 := fun h => hl (List.length_eq_zero.mp h)
      omega
    rw [if_neg h2]
    have hsorted : List.Sorted (· ≤ ·) (l ++ [n]) := by
      refine List.pairwise_append.mpr ⟨hsort, List.pairwise_singleton _ _, ?_⟩
      intro a ha b hb
      simp only [List.mem_singleton] at hb
      exact hb ▸ le_of_lt (hlt a ha)
    rw [hsorted.insertionSort_eq]
    have hlen : l.length - 1 < l.length := by
      have : l.length ≠ 0 := fun h => hl (List.length_eq_zero.mp h)
      omega
    have hidx : (l ++ [n]).length - 2 = l.length - 1 := by
      simp only [List.length_append, List.length_singleton]
      omega
    have hgetD : (l ++ [n]).getD ((l ++ [n]).length - 2) 0 = l.getLast hl := by
      rw [hidx, List.getD_eq_getElem?_getD, List.getElem?_append_left hlen,
        ← List.getLast?_eq_getElem?, List.getLast?_eq_getLast_of_ne_nil hl]
      rfl
    refine ⟨by trivial, by trivial, fun h => absurd h hl, fun _ => ?_⟩
    rw [hgetD, List.getLast?_eq_getLast_of_ne_nil hl]

/-- The directory after a run of writes in strictly increasing block order:
the listing is the write sequence itself, `latest.raw` names the final
(largest) block and `pre_latest.raw` the one before it. -/
theorem process_fold_spec (bs : List Nat) (hp : List.Pairwise (· < ·) bs)
    (hreal : ∀ x ∈ bs, x < 1000000000) :
    (List.foldl process_preconf_write emptyPreconfDir bs).files = bs
    ∧ (List.foldl process_preconf_write emptyPreconfDir bs).latest = bs.getLast?
    ∧ (List.foldl process_preconf_write emptyPreconfDir bs).pre_latest
        = bs.dropLast.getLast? := by
  induction bs using List.reverseRecOn with
  | nil => exact ⟨rfl, rfl, rfl⟩
  | append_singleton l n ih =>
    obtain ⟨hl, -, hlt⟩ := List.pairwise_append.mp hp
    have hltn : ∀ x ∈ l, x < n := fun x hx =>
      hlt x hx n (List.mem_singleton.mpr rfl)
    have hreall : ∀ x ∈ l, x < 1000000000 := fun x hx =>
      hreal x (List.mem_append.mpr (Or.inl hx))
    have hn : n < 1000000000 :=
      hreal n (List.mem_append.mpr (Or.inr (List.mem_singleton.mpr rfl)))
    obtain ⟨ihf, ihl, ihp⟩ := ih hl hreall
    have hsort : List.Sorted (· ≤ ·) l := hl.imp le_of_lt
    have hstep := process_preconf_write_spec _ l n ihf hltn hreall hn hsort
    rw [List.foldl_append]
    simp only [List.foldl_cons, List.foldl_nil]
    refine ⟨hstep.1, ?_, ?_⟩
    · rw [hstep.2.1, List.getLast?_append_cons]
      rfl
    · by_cases hle : l = []
      · subst hle
        rw [hstep.2.2.1 rfl, ihp]
        rfl
      · rw [hstep.2.2.2 hle, List.dropLast_concat]

/-- For a strictly decreasing-free (pairwise increasing) list, the last
element is the maximum. -/
theorem pairwise_lt_getLast_max (bs : List Nat) (hp : List.Pairwise (· < ·) bs)
    (m : Nat) (hm : bs.getLast? = some m) : m ∈ bs ∧ ∀ x ∈ bs, x ≤ m := by
  have hsplit : bs.dropLast ++ [m] = bs :=
    List.dropLast_append_getLast? m hm
  obtain ⟨-, -, hlt⟩ := List.pairwise_append.mp (hsplit ▸ hp)
  constructor
  · rw [← hsplit]
    exact List.mem_append.mpr (Or.inr (List.mem_singleton.mpr rfl))
  · intro x hx
    rw [← hsplit] at hx
    rcases List.mem_append.mp hx with h | h
    · exact le_of_lt (hlt x h m (List.mem_singleton.mpr rfl))
    · exact le_of_eq (List.mem_singleton.mp h)

/-- C6 counterexample: writing the distinct blocks 5, 7, 6 in that order
(the gap-fill path of the ingester writes recovered older blocks after the
newer one), `latest.raw` resolves to block 6 even though the maximum block
number among those written is 7, so the claim fails as stated. -/
theorem c6_counterexample :
    (List.foldl process_preconf_write emptyPreconfDir [5, 7, 6]).latest = some 6
    ∧ 7 ∈ [5, 7, 6] ∧ ¬(7 : Nat) ≤ 6 := by decide

/-- C6 (amended): provided the N distinct payloads are written in strictly
increasing block-number order (each below the 1000000000 filter bound of
`find_previous_block_file`), reading `latest.raw` yields the payload with
the maximum block number among those written, and — once at least two have
been written — `pre_latest.raw` yields the second maximum.  In general
`latest.raw` resolves to the most recently written payload, which an
out-of-order write makes different from the maximum. -/
theorem c6_theorem (bs : List Nat) (hp : List.Pairwise (· < ·) bs)
    (hreal : ∀ x ∈ bs, x < 1000000000) :
    (List.foldl process_preconf_write emptyPreconfDir bs).latest = bs.getLast?
    ∧ (List.foldl process_preconf_write emptyPreconfDir bs).pre_latest
        = bs.dropLast.getLast?
    ∧ (∀ m, (List.foldl process_preconf_write emptyPreconfDir bs).latest = some m →
        m ∈ bs ∧ ∀ x ∈ bs, x ≤ m)
    ∧ (∀ p m, (List.foldl process_preconf_write emptyPreconfDir bs).pre_latest = some p →
        (List.foldl process_preconf_write emptyPreconfDir bs).latest = some m →
        p ∈ bs ∧ p < m ∧ ∀ x ∈ bs, x ≠ m → x ≤ p)
    ∧ (2 ≤ bs.length →
        ∃ p, (List.foldl process_preconf_write emptyPreconfDir bs).pre_latest = some p) := by
  obtain ⟨hf, hl, hpre⟩ := process_fold_spec bs hp hreal
  refine ⟨hl, hpre, ?_, ?_, ?_⟩
  · intro m hm
    exact pairwise_lt_getLast_max bs hp m (hl ▸ hm)
  · intro p m hpp hmm
    have hm : bs.getLast? = some m := hl ▸ hmm
    have hsplit : bs.dropLast ++ [m] = bs :=
      List.dropLast_append_getLast? m hm
    obtain ⟨hpd, -, hlt⟩ := List.pairwise_append.mp (hsplit ▸ hp)
    have hp2 : bs.dropLast.getLast? = some p := hpre ▸ hpp
    obtain ⟨hpmem, hpmax⟩ := pairwise_lt_getLast_max bs.dropLast hpd p hp2
    refine ⟨?_, hlt p hpmem m (List.mem_singleton.mpr rfl), ?_⟩
    · rw [← hsplit]
      exact List.mem_append.mpr (Or.inl hpmem)
    · intro x hx hne
      rw [← hsplit] at hx
      rcases List.mem_append.mp hx with h | h
      · exact hpmax x h
      · exact absurd (List.mem_singleton.mp h) hne
  · intro h2
    rw [hpre]
    have hnd : bs.dropLast ≠ [] := by
      have := bs.length_dropLast
      intro h
      rw [h] at this
      simp only [List.length_nil] at this
      omega
    exact ⟨bs.dropLast.getLast hnd, List.getLast?_eq_getLast_of_ne_nil hnd⟩

/-- C6 witness: the amended statement at the concrete increasing write
sequence 1, 2, 3. -/
theorem c6_witness :
    (List.foldl process_preconf_write emptyPreconfDir [1, 2, 3]).latest
        = [1, 2, 3].getLast?
    ∧ (List.foldl process_preconf_write emptyPreconfDir [1, 2, 3]).pre_latest
        = [1, 2, 3].dropLast.getLast?
    ∧ (∀ m, (List.foldl process_preconf_write emptyPreconfDir [1, 2, 3]).latest = some m →
        m ∈ [1, 2, 3] ∧ ∀ x ∈ [1, 2, 3], x ≤ m)
    ∧ (∀ p m, (List.foldl process_preconf_write emptyPreconfDir [1, 2, 3]).pre_latest = some p →
        (List.foldl process_preconf_write emptyPreconfDir [1, 2, 3]).latest = some m →
        p ∈ [1, 2, 3] ∧ p < m ∧ ∀ x ∈ [1, 2, 3], x ≠ m → x ≤ p)
    ∧ (2 ≤ [1, 2, 3].length →
        ∃ p, (List.foldl process_preconf_write emptyPreconfDir [1, 2, 3]).pre_latest = some p) :=
  c6_theorem [1, 2, 3] (by decide) (by decide)

/-!
Claim theorems: the zk guest program.  The workhorse lemmas characterise
acceptance of the recursion block and invert acceptance of the whole guest.
-/

/-- Acceptance of the recursion block: with recursion data present, the
block succeeds exactly when the sp1 syscall accepts, the digest matches,
the public values decode, and both continuity checks hold — and then it
returns the previous proof.s starting committee root. -/
theorem guest_recursion_root_some_iff (E : ZkEnv) (pd : ProofData)
    (rd : RecursionData) (ocr : Bytes) :
    guest_recursion_root E pd (some rd) = some ocr ↔
      E.verify_sp1_proof rd.vkey_hash rd.public_values_digest = true
      ∧ E.sha256_bytes rd.public_values = rd.public_values_digest
      ∧ ∃ prev, E.bincode_verification_output rd.public_values = some prev
          ∧ prev.next_period = from_le_bytes pd.slot_bytes >>> 13
          ∧ prev.next_keys_root = pd.current_keys_root
          ∧ ocr = prev.current_keys_root := by
  constructor
  · intro h
    unfold guest_recursion_root at h
    dsimp only at h
    by_cases h1 : E.verify_sp1_proof rd.vkey_hash rd.public_values_digest = false
    · rw [if_pos h1] at h; exact absurd h (by simp)
    · rw [if_neg h1] at h
      by_cases h2 : E.sha256_bytes rd.public_values ≠ rd.public_values_digest
      · rw [if_pos h2] at h; exact absurd h (by simp)
      · rw [if_neg h2] at h
        cases hdes : E.bincode_verification_output rd.public_values with
        | none => rw [hdes] at h; exact absurd h (by simp)
        | some prev =>
          rw [hdes] at h
          dsimp only at h
          by_cases h3 : prev.next_period ≠ from_le_bytes pd.slot_bytes >>> 13
          · rw [if_pos h3] at h; exact absurd h (by simp)
          · rw [if_neg h3] at h
            by_cases h4 : prev.next_keys_root ≠ pd.current_keys_root
            · rw [if_pos h4] at h; exact absurd h (by simp)
            · rw [if_neg h4] at h
              exact ⟨by simpa using h1, not_ne_iff.mp h2, prev, rfl,
                not_ne_iff.mp h3, not_ne_iff.mp h4, (Option.some.inj h).symm⟩
  · rintro ⟨h1, h2, prev, hdes, h3, h4, h5⟩
    unfold guest_recursion_root
    dsimp only
    rw [if_neg (by simp [h1]), if_neg (not_ne_iff.mpr h2), hdes]
    dsimp only
    rw [if_neg (not_ne_iff.mpr h3), if_neg (not_ne_iff.mpr h4), h5]

/-- Inversion of guest acceptance: an accepted input passed every check of
the verification pipeline, and the committed output is built from the
aggregated starting root, the input.s next keys root and period, the
recovered attested header root and the domain leaf. -/
theorem guest_main_some_inversion (E : ZkEnv) (input : SP1GuestInput)
    (out : VerificationOutput) (h : guest_main E input = some out) :
    ∃ ocr nsc half_gidx,
      guest_recursion_root E input.proof_data input.recursion_data = some ocr
      ∧ next_sync_committee_gindex_for (input.proof_data.proof.length / 32) = some nsc
      ∧ ssz_add_gindex SIGNING_DATA_STATE_ROOT_GINDEX nsc = some half_gidx
      ∧ from_le_bytes input.proof_data.slot_bytes >>> 13
          = u64_wrapping_sub_one input.proof_data.next_period
      ∧ 96 ≤ input.proof_data.proof.length
      ∧ create_root_hash E input.proof_data.current_keys
          = input.proof_data.current_keys_root
      ∧ (input.proof_data.proof.length / 32 = 10 ∨ input.proof_data.proof.length / 32 = 11)
      ∧ (sp1_header_proof input.proof_data).length = 4 * 32
      ∧ (sp1_domain input.proof_data).take 4 = [7, 0, 0, 0]
      ∧ input.proof_data.signature.length = 96
      ∧ input.proof_data.signature_bits.length = 64
      ∧ 1 ≤ count_bits_set_512 input.proof_data.signature_bits
      ∧ 512 * 2 ≤ count_bits_set_512 input.proof_data.signature_bits * 3
      ∧ out = { current_keys_root := ocr,
                next_keys_root := input.proof_data.next_keys_root,
                next_period := input.proof_data.next_period,
                attested_header_root :=
                  (sp1_header_walk E input.proof_data (half_gidx * 2 % 2 ^ 32)).2,
                domain := sp1_domain input.proof_data } := by
  unfold guest_main at h
  cases hrec : guest_recursion_root E input.proof_data input.recursion_data with
  | none => rw [hrec] at h; exact absurd h (by simp)
  | some ocr =>
  rw [hrec] at h
  dsimp only at h
  by_cases h1 : from_le_bytes input.proof_data.slot_bytes >>> 13
      ≠ u64_wrapping_sub_one input.proof_data.next_period
  · rw [if_pos h1] at h; exact absurd h (by simp)
  rw [if_neg h1] at h
  by_cases h2 : input.proof_data.proof.length < 96
  · rw [if_pos h2] at h; exact absurd h (by simp)
  rw [if_neg h2] at h
  by_cases h3 : verify_slot E input.proof_data.slot_bytes input.proof_data.proposer_bytes
      ((input.proof_data.proof.drop (input.proof_data.proof.length - 96)).take 32) = false
  · rw [if_pos h3] at h; exact absurd h (by simp)
  rw [if_neg h3] at h
  by_cases h4 : create_root_hash E input.proof_data.current_keys
      ≠ input.proof_data.current_keys_root
  · rw [if_pos h4] at h; exact absurd h (by simp)
  rw [if_neg h4] at h
  cases hnsc : next_sync_committee_gindex_for (input.proof_data.proof.length / 32) with
  | none => rw [hnsc] at h; exact absurd h (by simp)
  | some nsc =>
  rw [hnsc] at h
  dsimp only at h
  cases hssz : ssz_add_gindex SIGNING_DATA_STATE_ROOT_GINDEX nsc with
  | none => rw [hssz] at h; exact absurd h (by simp)
  | some half_gidx =>
  rw [hssz] at h
  dsimp only at h
  by_cases h5 : input.proof_data.proof.length / 32 ≠ 10
      ∧ input.proof_data.proof.length / 32 ≠ 11
  · rw [if_pos h5] at h; exact absurd h (by simp)
  rw [if_neg h5] at h
  by_cases h6 : (sp1_state_walk E input.proof_data (half_gidx * 2 % 2 ^ 32)).1
      ≠ SIGNING_DATA_STATE_ROOT_GINDEX
  · rw [if_pos h6] at h; exact absurd h (by simp)
  rw [if_neg h6] at h
  by_cases h7 : (sp1_header_proof input.proof_data).length ≠ 4 * 32
  · rw [if_pos h7] at h; exact absurd h (by simp)
  rw [if_neg h7] at h
  by_cases h8 : (sp1_domain input.proof_data).take 4 ≠ [7, 0, 0, 0]
  · rw [if_pos h8] at h; exact absurd h (by simp)
  rw [if_neg h8] at h
  by_cases h9 : (sp1_header_walk E input.proof_data (half_gidx * 2 % 2 ^ 32)).1 ≠ 2
  · rw [if_pos h9] at h; exact absurd h (by simp)
  rw [if_neg h9] at h
  by_cases h10 : input.proof_data.signature.length ≠ 96
  · rw [if_pos h10] at h; exact absurd h (by simp)
  rw [if_neg h10] at h
  by_cases h11 : input.proof_data.signature_bits.length ≠ 64
  · rw [if_pos h11] at h; exact absurd h (by simp)
  rw [if_neg h11] at h
  by_cases h12 : count_bits_set_512 input.proof_data.signature_bits < 1
  · rw [if_pos h12] at h; exact absurd h (by simp)
  rw [if_neg h12] at h
  by_cases h13 : count_bits_set_512 input.proof_data.signature_bits * 3 < 512 * 2
  · rw [if_pos h13] at h; exact absurd h (by simp)
  rw [if_neg h13] at h
  by_cases h14 : E.bls_verify_signature
      (verify_merkle_proof E input.proof_data.proof (half_gidx * 2 % 2 ^ 32)
        input.proof_data.next_keys_root)
      input.proof_data.signature input.proof_data.current_keys
      input.proof_data.signature_bits = false
  · rw [if_pos h14] at h; exact absurd h (by simp)
  rw [if_neg h14] at h
  refine ⟨ocr, nsc, half_gidx, rfl, rfl, hssz, not_ne_iff.mp h1, by omega,
    not_ne_iff.mp h4, by tauto, not_ne_iff.mp h7, not_ne_iff.mp h8,
    not_ne_iff.mp h10, not_ne_iff.mp h11, by omega, by omega,
    (Option.some.inj h).symm⟩

/-- An input that cannot be accepted is rejected: the guest either panics
(`none`) or commits an output. -/
theorem guest_main_eq_none (E : ZkEnv) (input : SP1GuestInput)
    (h : ∀ out, guest_main E input ≠ some out) : guest_main E input = none := by
  cases hv : guest_main E input with
  | none => rfl
  | some out => exact absurd hv (h out)

/-- The recursion of `create_root_hash` agrees with the spec-side tree: for
a full 512-key input, the node of the source recursion at generalized index
`2 ^ (9 - h) + i` is the spec tree node of height `h` at position `i`. -/
theorem root_hash_rec_spec (E : ZkEnv) (keys : Bytes) (hlen : keys.length = 512 * 48) :
    ∀ h : Nat, h ≤ 9 → ∀ i : Nat, i < 2 ^ (9 - h) →
      root_hash_rec E keys (h + 1) (2 ^ (9 - h) + i) = spec_committee_node E keys h i := by
  intro h
  induction h with
  | zero =>
    intro _ i hi
    norm_num at hi
    simp only [root_hash_rec, spec_committee_node, spec_committee_leaf]
    norm_num
    rw [if_neg (by omega)]
    rw [Nat.mul_comm 48 i]
  | succ h ih =>
    intro hh i hi
    have h8 : 9 - h = (8 - h) + 1 := by omega
    have h9 : 9 - (h + 1) = 8 - h := by omega
    have hp : 2 ^ (9 - h) = 2 * 2 ^ (8 - h) := by
      rw [h8, pow_succ]
      ring
    have hbound : 2 ^ (8 - h) ≤ 256 := by
      calc 2 ^ (8 - h) ≤ 2 ^ 8 := Nat.pow_le_pow_right (by norm_num) (by omega)
        _ = 256 := by norm_num
    rw [h9] at hi
    have hg : ¬512 ≤ 2 ^ (9 - (h + 1)) + i := by
      rw [h9]
      omega
    have e2 : 2 * (2 ^ (9 - (h + 1)) + i) = 2 ^ (9 - h) + 2 * i := by
      rw [h9]
      omega
    have e3 : 2 * (2 ^ (9 - (h + 1)) + i) + 1 = 2 ^ (9 - h) + (2 * i + 1) := by
      rw [h9]
      omega
    conv_rhs => rw [spec_committee_node]
    rw [root_hash_rec, if_neg hg, e2]
    rw [show 2 ^ (9 - h) + 2 * i + 1 = 2 ^ (9 - h) + (2 * i + 1) from by omega]
    rw [ih (by omega) (2 * i) (by omega), ih (by omega) (2 * i + 1) (by omega)]

/-- `create_root_hash` computes exactly the spec-side depth-9 committee
tree when given the full 512 keys of 48 bytes each. -/
theorem create_root_hash_eq_spec (E : ZkEnv) (keys : Bytes)
    (hlen : keys.length = 512 * 48) :
    create_root_hash E keys = spec_committee_root E keys := by
  have h := root_hash_rec_spec E keys hlen 9 (le_refl 9) 0 (by norm_num)
  norm_num at h
  simpa [create_root_hash, spec_committee_root] using h

/-- When the header-proof slice has its required 128 bytes, the domain leaf
is the final 32 bytes of the whole Merkle branch. -/
theorem sp1_domain_eq_final (pd : ProofData)
    (hh : (sp1_header_proof pd).length = 4 * 32) :
    sp1_domain pd = pd.proof.drop (pd.proof.length - 32) := by
  unfold sp1_domain
  rw [hh]
  unfold sp1_header_proof at hh ⊢
  rw [List.length_drop] at hh
  rw [List.drop_drop]
  congr 1
  omega

/-- Little-endian decoding of a byte string stays below `256 ^ length`. -/
theorem from_le_bytes_lt (b : Bytes) (hb : ∀ x ∈ b, x < 256) :
    from_le_bytes b < 256 ^ b.length := by
  induction b with
  | nil => simp [from_le_bytes]
  | cons x xs ih =>
    have hx : x < 256 := hb x (List.mem_cons_self x xs)
    have hxs : from_le_bytes xs < 256 ^ xs.length :=
      ih (fun y hy => hb y (List.mem_cons_of_mem x hy))
    show x + 256 * from_le_bytes xs < 256 ^ (xs.length + 1)
    calc x + 256 * from_le_bytes xs < 256 * (from_le_bytes xs + 1) := by omega
      _ ≤ 256 * 256 ^ xs.length := Nat.mul_le_mul_left 256 (by omega)
      _ = 256 ^ (xs.length + 1) := by rw [pow_succ, Nat.mul_comm]

/-!
Concrete instances used by the witness theorems: a trivial interpretation
of the external collaborators and small concrete inputs.
-/

/-- The previous-proof output used by the concrete environment. -/
def prev0 : VerificationOutput :=
  { current_keys_root := zeros32, next_keys_root := zeros32, next_period := 1,
    attested_header_root := zeros32, domain := zeros32 }

/-- A concrete interpretation of the external collaborators: constant
hashes, a decoder returning `prev0`, and accepting sp1 and BLS checks. -/
def zkEnv0 : ZkEnv :=
  { sha256_merkle := fun _ _ => zeros32,
    sha256_bytes := fun _ => zeros32,
    bincode_verification_output := fun _ => some prev0,
    verify_sp1_proof := fun _ _ => true,
    bls_verify_signature := fun _ _ _ _ => true }

/-- A small concrete `ProofData`. -/
def pd0 : ProofData :=
  { current_keys_root := zeros32, next_keys_root := zeros32, next_period := 1,
    current_keys := [], signature_bits := List.replicate 64 0,
    signature := List.replicate 96 0, slot_bytes := List.replicate 8 0,
    proposer_bytes := List.replicate 8 0, proof := List.replicate 320 0, gidx := 0 }

/-- A concrete `ProofData` that the guest accepts under `zkEnv0`: empty key
bytes (every leaf of the key tree falls back to the zero buffer), a 320-byte
branch whose final 32 bytes start with the sync-committee domain tag, and a
full participation bitfield. -/
def pd_ok : ProofData :=
  { pd0 with
    signature_bits := List.replicate 64 255,
    proof := List.replicate 288 0 ++ (7 :: 0 :: 0 :: 0 :: List.replicate 28 0) }

/-- A recursion wrapper for the concrete environment. -/
def rd0 : RecursionData :=
  { vkey_hash := [], public_values_digest := zeros32, public_values := [] }

set_option maxRecDepth 10000 in
/-- The guest accepts a concrete input: the pipeline of `guest_main` is
satisfiable, so the acceptance inversions above are not vacuous. -/
theorem guest_main_accepting_example :
    guest_main zkEnv0 { proof_data := pd_ok, recursion_data := none }
      = some { current_keys_root := zeros32, next_keys_root := zeros32,
               next_period := 1, attested_header_root := zeros32,
               domain := 7 :: 0 :: 0 :: 0 :: List.replicate 28 0 } := by decide

/-- C1: with recursion data whose public values decode to the previous
output `prev`, the guest rejects unless the previous proof.s committed
`next_period` equals `slot >> 13` of the current input and its committed
`next_keys_root` equals the current input.s `current_keys_root`; and
whenever it accepts, the `current_keys_root` it commits is the previous
proof.s `current_keys_root`, so verifying A->B then B->C yields a single
proof attesting A->C. -/
theorem c1_theorem (E : ZkEnv) (input : SP1GuestInput) (rd : RecursionData)
    (prev : VerificationOutput)
    (hrd : input.recursion_data = some rd)
    (hdes : E.bincode_verification_output rd.public_values = some prev) :
    ((prev.next_period ≠ from_le_bytes input.proof_data.slot_bytes >>> 13
        ∨ prev.next_keys_root ≠ input.proof_data.current_keys_root) →
      guest_main E input = none)
    ∧ (∀ out, guest_main E input = some out →
        prev.next_period = from_le_bytes input.proof_data.slot_bytes >>> 13
        ∧ prev.next_keys_root = input.proof_data.current_keys_root
        ∧ out.current_keys_root = prev.current_keys_root) := by
  constructor
  · intro hbad
    apply guest_main_eq_none
    intro out hsome
    obtain ⟨ocr, nsc, hgx, hrec, -, -, -, -, -, -, -, -, -, -, -, -, -⟩ :=
      guest_main_some_inversion E input out hsome
    rw [hrd] at hrec
    obtain ⟨-, -, prev2, hdes2, hnp, hnk, -⟩ :=
      (guest_recursion_root_some_iff E input.proof_data rd ocr).mp hrec
    obtain rfl : prev2 = prev := Option.some.inj (hdes2.symm.trans hdes)
    rcases hbad with hb | hb
    · exact hb hnp
    · exact hb hnk
  · intro out hsome
    obtain ⟨ocr, nsc, hgx, hrec, -, -, -, -, -, -, -, -, -, -, -, -, hout⟩ :=
      guest_main_some_inversion E input out hsome
    rw [hrd] at hrec
    obtain ⟨-, -, prev2, hdes2, hnp, hnk, hocr⟩ :=
      (guest_recursion_root_some_iff E input.proof_data rd ocr).mp hrec
    obtain rfl : prev2 = prev := Option.some.inj (hdes2.symm.trans hdes)
    subst hout
    exact ⟨hnp, hnk, hocr⟩

/-- C1 witness: under the concrete environment and input, the previous
output.s `next_period` (1) differs from the current period (0), and the
guest rejects. -/
theorem c1_witness :
    guest_main zkEnv0 { proof_data := pd0, recursion_data := some rd0 } = none :=
  (c1_theorem zkEnv0 { proof_data := pd0, recursion_data := some rd0 } rd0 prev0
    rfl rfl).1 (Or.inl (by decide))

/-- C2: for an input carrying the full 512 forty-eight-byte keys, the SSZ
hash-tree-root the guest recomputes is the depth-9 binary Merkle tree whose
leaf `i` hashes `key_i[0..32]` against `key_i[32..48]` padded with 16 zero
bytes; every accepted input satisfies `create_root_hash(current_keys) =
current_keys_root`, and any input violating that equality is rejected. -/
theorem c2_theorem (E : ZkEnv) (input : SP1GuestInput)
    (hlen : input.proof_data.current_keys.length = 512 * 48) :
    create_root_hash E input.proof_data.current_keys
        = spec_committee_root E input.proof_data.current_keys
    ∧ (∀ out, guest_main E input = some out →
        spec_committee_root E input.proof_data.current_keys
          = input.proof_data.current_keys_root)
    ∧ (spec_committee_root E input.proof_data.current_keys
          ≠ input.proof_data.current_keys_root → guest_main E input = none) := by
  have hs := create_root_hash_eq_spec E input.proof_data.current_keys hlen
  refine ⟨hs, ?_, ?_⟩
  · intro out hsome
    obtain ⟨ocr, nsc, hgx, -, -, -, -, -, hcreate, -, -, -, -, -, -, -, -⟩ :=
      guest_main_some_inversion E input out hsome
    rw [← hs]
    exact hcreate
  · intro hne
    apply guest_main_eq_none
    intro out hsome
    obtain ⟨ocr, nsc, hgx, -, -, -, -, -, hcreate, -, -, -, -, -, -, -, -⟩ :=
      guest_main_some_inversion E input out hsome
    rw [hs] at hcreate
    exact hne hcreate

/-- C2 witness: the concrete input with 512 * 48 zero key bytes. -/
theorem c2_witness :
    create_root_hash zkEnv0 ({ pd0 with
          current_keys := List.replicate (512 * 48) 0 } : ProofData).current_keys
        = spec_committee_root zkEnv0 ({ pd0 with
          current_keys := List.replicate (512 * 48) 0 } : ProofData).current_keys
    ∧ (∀ out, guest_main zkEnv0 { proof_data := { pd0 with
          current_keys := List.replicate (512 * 48) 0 }, recursion_data := none }
          = some out →
        spec_committee_root zkEnv0 ({ pd0 with
            current_keys := List.replicate (512 * 48) 0 } : ProofData).current_keys
          = ({ pd0 with
            current_keys := List.replicate (512 * 48) 0 } : ProofData).current_keys_root)
    ∧ (spec_committee_root zkEnv0 ({ pd0 with
            current_keys := List.replicate (512 * 48) 0 } : ProofData).current_keys
          ≠ ({ pd0 with
            current_keys := List.replicate (512 * 48) 0 } : ProofData).current_keys_root →
        guest_main zkEnv0 { proof_data := { pd0 with
          current_keys := List.replicate (512 * 48) 0 }, recursion_data := none } = none) :=
  c2_theorem zkEnv0 { proof_data := { pd0 with
    current_keys := List.replicate (512 * 48) 0 }, recursion_data := none }
    (by show (List.replicate (512 * 48) (0 : Nat)).length = 512 * 48
        exact List.length_replicate _ _)

/-- C3: the participation guard rejects exactly when three times the
popcount of the 512-bit bitfield is below 1024, i.e. below 342 of the 512
seats; an accepted input has popcount at least 342, and any bitfield with
popcount at least 342 passes both participation checks (the at-least-one
check and the two-thirds check). -/
theorem c3_theorem (E : ZkEnv) (input : SP1GuestInput) :
    (count_bits_set_512 input.proof_data.signature_bits * 3 < 1024 →
      guest_main E input = none)
    ∧ (∀ out, guest_main E input = some out →
        342 ≤ count_bits_set_512 input.proof_data.signature_bits)
    ∧ (∀ bits : Bytes, 342 ≤ count_bits_set_512 bits →
        1 ≤ count_bits_set_512 bits ∧ 512 * 2 ≤ count_bits_set_512 bits * 3)
    ∧ (∀ bits : Bytes,
        count_bits_set_512 bits * 3 < 512 * 2 ↔ count_bits_set_512 bits < 342) := by
  refine ⟨?_, ?_, fun bits h => ⟨by omega, by omega⟩, fun bits => by omega⟩
  · intro hlow
    apply guest_main_eq_none
    intro out hsome
    obtain ⟨ocr, nsc, hgx, -, -, -, -, -, -, -, -, -, -, -, -, hp3, -⟩ :=
      guest_main_some_inversion E input out hsome
    omega
  · intro out hsome
    obtain ⟨ocr, nsc, hgx, -, -, -, -, -, -, -, -, -, -, -, -, hp3, -⟩ :=
      guest_main_some_inversion E input out hsome
    omega

/-- C4: the generalized index of `next_sync_committee.pubkeys` is selected
solely from the branch node count — 10 nodes give 55 (Deneb), 11 nodes give
87 (Electra), anything else is rejected — and an input whose domain leaf
(the final 32 bytes of the branch) does not begin with the bytes
`0x07 0x00 0x00 0x00` is rejected. -/
theorem c4_theorem (E : ZkEnv) (input : SP1GuestInput) :
    next_sync_committee_gindex_for 10 = some 55
    ∧ next_sync_committee_gindex_for 11 = some 87
    ∧ (∀ n, n ≠ 10 → n ≠ 11 → next_sync_committee_gindex_for n = none)
    ∧ (next_sync_committee_gindex_for (input.proof_data.proof.length / 32) = none →
        guest_main E input = none)
    ∧ ((sp1_domain input.proof_data).take 4 ≠ [7, 0, 0, 0] →
        guest_main E input = none)
    ∧ (∀ out, guest_main E input = some out →
        (input.proof_data.proof.length / 32 = 10
            ∧ next_sync_committee_gindex_for (input.proof_data.proof.length / 32)
              = some 55
          ∨ input.proof_data.proof.length / 32 = 11
            ∧ next_sync_committee_gindex_for (input.proof_data.proof.length / 32)
              = some 87)
        ∧ out.domain = input.proof_data.proof.drop (input.proof_data.proof.length - 32)
        ∧ out.domain.take 4 = [7, 0, 0, 0]) := by
  refine ⟨rfl, rfl, ?_, ?_, ?_, ?_⟩
  · intro n h10 h11
    unfold next_sync_committee_gindex_for
    rw [if_neg h10, if_neg h11]
  · intro hnone
    apply guest_main_eq_none
    intro out hsome
    obtain ⟨ocr, nsc, hgx, -, hnsc, -, -, -, -, -, -, -, -, -, -, -, -⟩ :=
      guest_main_some_inversion E input out hsome
    rw [hnone] at hnsc
    exact absurd hnsc (by simp)
  · intro hbad
    apply guest_main_eq_none
    intro out hsome
    obtain ⟨ocr, nsc, hgx, -, -, -, -, -, -, -, -, hdom, -, -, -, -, -⟩ :=
      guest_main_some_inversion E input out hsome
    exact hbad hdom
  · intro out hsome
    obtain ⟨ocr, nsc, hgx, -, hnsc, -, -, -, -, hnodes, hhlen, hdom, -, -, -, -, hout⟩ :=
      guest_main_some_inversion E input out hsome
    have hfin := sp1_domain_eq_final input.proof_data hhlen
    subst hout
    refine ⟨?_, by simpa using hfin, by simpa using hdom⟩
    rcases hnodes with h | h
    · exact Or.inl ⟨h, by rw [h]; rfl⟩
    · exact Or.inr ⟨h, by rw [h]; rfl⟩

/-- C5: the committed public output consists of exactly the five fields
`(current_keys_root, next_keys_root, next_period, attested_header_root,
domain)` — a `VerificationOutput` is determined by those five projections —
and during recursive verification the previous proof.s public values
deserialize to the same five-field structure, whose `current_keys_root` is
what the guest commits. -/
theorem c5_theorem (E : ZkEnv) (input : SP1GuestInput) :
    (∀ o : VerificationOutput,
      o = { current_keys_root := o.current_keys_root,
            next_keys_root := o.next_keys_root,
            next_period := o.next_period,
            attested_header_root := o.attested_header_root,
            domain := o.domain })
    ∧ (∀ out, guest_main E input = some out →
        out.next_keys_root = input.proof_data.next_keys_root
        ∧ out.next_period = input.proof_data.next_period)
    ∧ (∀ rd out, input.recursion_data = some rd → guest_main E input = some out →
        ∃ prev : VerificationOutput,
          E.bincode_verification_output rd.public_values = some prev
          ∧ out.current_keys_root = prev.current_keys_root) := by
  refine ⟨fun o => rfl, ?_, ?_⟩
  · intro out hsome
    obtain ⟨ocr, nsc, hgx, -, -, -, -, -, -, -, -, -, -, -, -, -, hout⟩ :=
      guest_main_some_inversion E input out hsome
    subst hout
    exact ⟨rfl, rfl⟩
  · intro rd out hrd hsome
    obtain ⟨ocr, nsc, hgx, hrec, -, -, -, -, -, -, -, -, -, -, -, -, hout⟩ :=
      guest_main_some_inversion E input out hsome
    rw [hrd] at hrec
    obtain ⟨-, -, prev, hdes, -, -, hocr⟩ :=
      (guest_recursion_root_some_iff E input.proof_data rd ocr).mp hrec
    subst hout
    exact ⟨prev, hdes, hocr⟩

/-- C10: an input whose `next_period` is zero is always rejected: the
period check compares `slot >> 13` with `next_period - 1` in u64
arithmetic, which wraps to `2 ^ 64 - 1` (a debug build would abort on the
underflow), a value `slot >> 13` can never reach since the slot fits in 64
bits; so no proof attesting a transition into period 0 is produced. -/
theorem c10_theorem (E : ZkEnv) (input : SP1GuestInput)
    (hz : input.proof_data.next_period = 0)
    (hlen : input.proof_data.slot_bytes.length = 8)
    (hbytes : ∀ b ∈ input.proof_data.slot_bytes, b < 256) :
    guest_main E input = none := by
  apply guest_main_eq_none
  intro out hsome
  obtain ⟨ocr, nsc, hgx, -, -, -, hper, -, -, -, -, -, -, -, -, -, -⟩ :=
    guest_main_some_inversion E input out hsome
  rw [hz] at hper
  have hslot : from_le_bytes input.proof_data.slot_bytes < 256 ^ (8 : Nat) := by
    have := from_le_bytes_lt input.proof_data.slot_bytes hbytes
    rwa [hlen] at this
  rw [Nat.shiftRight_eq_div_pow] at hper
  unfold u64_wrapping_sub_one at hper
  norm_num at hper hslot
  omega

/-- C10 witness: the concrete input with `next_period = 0` is rejected. -/
theorem c10_witness :
    guest_main zkEnv0
      { proof_data := { pd0 with next_period := 0 }, recursion_data := none } = none :=
  c10_theorem zkEnv0
    { proof_data := { pd0 with next_period := 0 }, recursion_data := none }
    rfl (by decide) (by decide)
